import Mathlib

/-!
Shallow embedding of the Ruby security core (`src/security/vault.py` and
`src/security/identity.py`) and proofs of the frozen claims about it.

Modelling conventions, shared by all definitions below:

* A Python `str` is modelled as `PyStr := List Nat`, the list of its Unicode
  code points.  A Python `bytes` value is a `List Nat` of byte values.
* Wall-clock time (`time.time()`) is modelled as an `Int` of whole seconds and
  is passed to each operation explicitly.  The several `time.time()` calls
  made inside one operation are modelled as a single instant.
* Randomness (`secrets.token_bytes` / `secrets.token_hex`) is modelled by
  passing the drawn bytes to each operation as explicit arguments.
* Cryptographic primitives (HMAC-SHA256, PBKDF2, AES-GCM) are modelled as
  ideal primitives: injective keyed encodings whose outputs can only be
  reproduced by re-running the primitive on the same inputs.  This is the
  standard symbolic model: collisions, which exist for the real primitives
  but are computationally unreachable, do not exist in the model.
* The platform is non-Windows (`sys.platform != "win32"`), hence
  `_DPAPI_AVAILABLE = False` and the PBKDF2 passphrase path is the live one;
  the DPAPI branches are kept and fail exactly where the source fails.
* Python exceptions are modelled with `Except`; because methods mutate
  `self` in place before an exception can be raised, errors carry the state
  as mutated so far.
-/

set_option maxRecDepth 16384

/-- A Python `str`: the list of its Unicode code points. -/
abbrev PyStr := List Nat

namespace RubySec

/-! ## Python dict as an insertion-ordered association list -/

/-- Python `d[k]` read access (`None` when absent): first binding wins; a
dict built by the operations below never holds a duplicate key. -/
def dictGet (m : List (PyStr × PyStr)) (k : PyStr) : Option PyStr :=
  match m.find? (fun e => e.1 = k) with
  | some e => some e.2
  | none => none

/-- Python `d[k] = v`: overwrite in place when the key is present (keeping
its position), append otherwise. -/
def dictSet (m : List (PyStr × PyStr)) (k : PyStr) (v : PyStr) :
    List (PyStr × PyStr) :=
  if m.any (fun e => e.1 = k) then
    m.map (fun e => if e.1 = k then (k, v) else e)
  else
    m ++ [(k, v)]

/-! ## Decimal strings

`str(n)` and `int(s)` for the `issued_at` token field.  The recursion is
fuel-structured so that the kernel can evaluate it. -/

/-- Decimal digit code points of `n`, most significant first (`str(n)` for a
natural number); the fuel argument only drives the recursion. -/
def natToDecAux : Nat → Nat → List Nat
  | 0, _ => []
  | fuel + 1, n =>
    if n < 10 then [48 + n]
    else natToDecAux fuel (n / 10) ++ [48 + n % 10]

/-- Python `str(n)` for a natural number `n`, as code points. -/
def natToDec (n : Nat) : List Nat := natToDecAux (n + 1) n

/-- Value of a list of decimal digit code points, most significant first,
given an accumulator. -/
def decDigitsVal (acc : Nat) : List Nat → Nat
  | [] => acc
  | d :: rest => decDigitsVal (acc * 10 + (d - 48)) rest

/-- Ideal keyed MAC: injective encoding of `(key, message)` as the decimal
digits of the elements, `x`-terminated, with a `y` between key and message;
all code points are ASCII and none is a colon. -/
def hmacSign (key : List Nat) (msg : PyStr) : PyStr :=
  key.flatMap (fun b => natToDec b ++ [120]) ++
    121 :: msg.flatMap (fun b => natToDec b ++ [120])

/-- `DEFAULT_TOKEN_TTL` (5 minutes, in seconds). -/
def DEFAULT_TOKEN_TTL : Int := 5 * 60

/-- `SIGNING_KEY_BYTES`. -/
def SIGNING_KEY_BYTES : Nat := 32

/-- In-memory state of an `IdentityManager`. -/
structure IdState where
  signingKey : List Nat
  tokenTtl : Int
  nonceStore : List (PyStr × Int)
  allowlist : List (PyStr × PyStr)
deriving DecidableEq, Repr

/-- The code points of `"allow:"`. -/
def allowPrefix : PyStr := [97, 108, 108, 111, 119, 58]

/-- `IdentityManager.is_peer_allowed`. -/
def isPeerAllowed (st : IdState) (peerId : PyStr) : Bool :=
  match dictGet st.allowlist peerId with
  | none => false
  | some sig => hmacSign st.signingKey (allowPrefix ++ peerId) = sig

/-- `IdentityManager.list_allowed_peers`. -/
def listAllowedPeers (st : IdState) : List PyStr :=
  (st.allowlist.map (fun e => e.1)).filter (fun p => isPeerAllowed st p)

/-- `IdentityManager.allow_peer`. -/
def allowPeer (st : IdState) (peerId : PyStr) : IdState :=
  { st with allowlist :=
      dictSet st.allowlist peerId (hmacSign st.signingKey (allowPrefix ++ peerId)) }

/-- `IdentityManager._load_allowlist` applied to the parsed JSON object on
disk: entries whose signature does not verify under the current signing key
are dropped. -/
def loadAllowlist (key : List Nat) (data : List (PyStr × PyStr)) :
    List (PyStr × PyStr) :=
  data.filter (fun e => hmacSign key (allowPrefix ++ e.1) = e.2)

/-- Result of constructing an `IdentityManager`: the in-memory state, the
signing-key file content after construction, and whether a fresh key was
generated (and hence the file rewritten). -/
structure IdInit where
  state : IdState
  keyFileAfter : List Nat
  generatedFresh : Bool
deriving DecidableEq, Repr

/-- `IdentityManager.__init__` restricted to its persistent inputs:
`keyFile` is the signing-key file content (when the file exists),
`allowFile` the parsed allowlist JSON (when that file exists and parses),
`freshKey` the bytes `secrets.token_bytes(32)` would draw.  A key file whose
content is not exactly 32 bytes is silently replaced by a fresh key. -/
def initIdentity (keyFile : Option (List Nat))
    (allowFile : Option (List (PyStr × PyStr)))
    (freshKey : List Nat) (tokenTtl : Int) : IdInit :=
  let loaded : Option (List Nat) :=
    match keyFile with
    | some raw => if raw.length = SIGNING_KEY_BYTES then some raw else none
    | none => none
  match loaded with
  | some key =>
    { state :=
        { signingKey := key, tokenTtl := tokenTtl, nonceStore := [],
          allowlist := match allowFile with
            | some d => loadAllowlist key d
            | none => [] },
      keyFileAfter := key, generatedFresh := false }
  | none =>
    { state :=
        { signingKey := freshKey, tokenTtl := tokenTtl, nonceStore := [],
          allowlist := match allowFile with
            | some d => loadAllowlist freshKey d
            | none => [] },
      keyFileAfter := freshKey, generatedFresh := true }

/-! ## Vault: key sources

The AES key in memory is either the raw output of `secrets.token_bytes(32)`
or the PBKDF2-HMAC-SHA256 derivation from a passphrase and a salt
(`Vault._pbkdf2_key`).  PBKDF2 is modelled as an ideal KDF: distinct
`(passphrase, salt)` pairs yield distinct keys, and a derived key never
coincides with an independently drawn random key — the idealisation of the
negligible collision probability. -/

/-- Source description of an in-memory AES key. -/
inductive AESKeySrc where
  | random (bytes : List Nat)
  | pbkdf2 (passphrase : PyStr) (salt : List Nat)
deriving DecidableEq, Repr

/-- Injective encoding of a key source, used inside ideal ciphertexts. -/
def keyEnc : AESKeySrc → List Nat
  | .random bs => 0 :: bs.length :: bs
  | .pbkdf2 pass salt => 1 :: pass.length :: salt.length :: (pass ++ salt)

/-! ## Ideal AES-256-GCM

`AESGCM(key).encrypt(nonce, pt, None)` returns ciphertext-plus-tag;
`decrypt` succeeds exactly on the byte string that `encrypt` produced under
the same key and nonce, and fails (`InvalidTag`) on everything else — the
idealisation of authenticated encryption.  The model makes the
ciphertext-plus-tag an explicit encoding of `(key, nonce, plaintext)`
(confidentiality is not modelled, only integrity and functionality); the
plaintext appears twice so that no two valid ciphertexts under the same key
and nonce are within one position-change of each other. -/

/-- Ideal AES-GCM encryption: `ciphertext_and_tag` as a list. -/
def aesgcmEncrypt (k : AESKeySrc) (n pt : List Nat) : List Nat :=
  pt.length :: (keyEnc k).length :: n.length :: (keyEnc k ++ n ++ pt ++ pt)

/-- Ideal AES-GCM decryption: returns the plaintext exactly when `ct` is the
encryption of that plaintext under `k` and `n`, and `none` otherwise. -/
def aesgcmDecrypt (k : AESKeySrc) (n ct : List Nat) : Option (List Nat) :=
  match ct with
  | lp :: _ :: _ :: rest =>
    let pt := (rest.drop ((keyEnc k).length + n.length)).take lp
    if ct = aesgcmEncrypt k n pt then some pt else none
  | _ => none

/-! ## Vault payload serialisation

`_save` writes `json.dumps(self._data, separators=(",", ":")).encode("utf-8")`
and `_load` reads it back with `json.loads`.  The claims use only that the
pipeline is an injective serialisation of the credential dict inverted by the
load; it is modelled as a direct length-prefixed encoding of the
insertion-ordered dict. -/

/-- Modelled from `json.dumps(..., separators=(",", ":")).encode("utf-8")`:
an injective serialisation of the credential map. -/
def serializeMap : List (PyStr × PyStr) → List Nat
  | [] => []
  | (k, v) :: rest => k.length :: v.length :: (k ++ v ++ serializeMap rest)

/-- Fuel-driven inverse of `serializeMap`; models `json.loads` on the
decrypted payload, `none` being a parse error. -/
def deserializeMapAux : Nat → List Nat → Option (List (PyStr × PyStr))
  | _, [] => some []
  | 0, _ :: _ => none
  | _ + 1, [_] => none
  | fuel + 1, lk :: lv :: rest =>
    if lk + lv ≤ rest.length then
      match deserializeMapAux fuel (rest.drop (lk + lv)) with
      | some m => some ((rest.take lk, (rest.drop lk).take lv) :: m)
      | none => none
    else none

/-- Inverse of `serializeMap` (models `json.loads`). -/
def deserializeMap (bs : List Nat) : Option (List (PyStr × PyStr)) :=
  deserializeMapAux bs.length bs

/-! ## Vault state and file format -/

/-- The messages behind the single `VaultError` class, told apart in the
model; `pyKeyError` is the `KeyError` of `retrieve`/`delete` and
`pyTypeError` the crash of `AESGCM(None)` were `_save` reached unloaded. -/
inductive VaultExc where
  | tooSmall
  | badMagic
  | badVersion
  | dpapiUnavailable
  | passphraseRequired
  | decryptionFailed
  | jsonError
  | pyKeyError
  | pyTypeError
deriving DecidableEq, Repr

/-- `MAGIC` (`b"RUBV"`). -/
def VAULT_MAGIC : List Nat := [82, 85, 66, 86]

/-- `KEY_MODE_DPAPI`. -/
def KEY_MODE_DPAPI : Nat := 0

/-- `KEY_MODE_PBKDF2`. -/
def KEY_MODE_PBKDF2 : Nat := 1

/-- In-memory state of a `Vault` (the fields of `self` other than the
path).  The platform is non-Windows, so a fresh instance starts in PBKDF2
mode. -/
structure VaultState where
  passphrase : Option PyStr
  data : Option (List (PyStr × PyStr))
  aesKey : Option AESKeySrc
  keyMode : Nat
  wrappedKeyOrSalt : Option (List Nat)
deriving DecidableEq, Repr

/-- `Vault.__init__` on a non-Windows platform (`_DPAPI_AVAILABLE` is
false, so `_key_mode` starts as `KEY_MODE_PBKDF2`). -/
def vaultNew (passphrase : Option PyStr) : VaultState :=
  { passphrase := passphrase, data := none, aesKey := none,
    keyMode := KEY_MODE_PBKDF2, wrappedKeyOrSalt := none }

/-- The byte layout `_save` writes: magic, version 1 little-endian, key
mode, 32-byte key material, 12-byte nonce, ciphertext-plus-tag. -/
def mkVaultFile (keyMode : Nat) (wrapped nonce ct : List Nat) : List Nat :=
  VAULT_MAGIC ++ [1, 0] ++ [keyMode] ++ wrapped ++ nonce ++ ct

/-- `Vault._save`: serialise, encrypt under a fresh nonce, and produce the
bytes that are atomically renamed over the vault file.  `nonce` is the draw
of `secrets.token_bytes(12)`. -/
def vaultSave (v : VaultState) (nonce : List Nat) : Except VaultExc (List Nat) :=
  match v.aesKey, v.wrappedKeyOrSalt, v.data with
  | some key, some wrapped, some m =>
    let ct := aesgcmEncrypt key nonce (serializeMap m)
    .ok (mkVaultFile v.keyMode wrapped nonce ct)
  | _, _, _ => .error .pyTypeError

/-- `Vault._load`: parse the header, recover the key, decrypt, deserialise.
`if not self._passphrase` is Python truthiness: a missing passphrase and the
empty string both raise the passphrase-required error.  Errors carry the
state as mutated before the raise; in every error case `data` is still
`none`. -/
def vaultLoad (v : VaultState) (raw : List Nat) :
    Except (VaultExc × VaultState) VaultState :=
  if raw.length < 4 + 2 + 1 + 32 + 12 + 16 then .error (.tooSmall, v)
  else
    match raw with
    | b0 :: b1 :: b2 :: b3 :: b4 :: b5 :: b6 :: rest =>
      if [b0, b1, b2, b3] ≠ VAULT_MAGIC then .error (.badMagic, v)
      else if b4 + 256 * b5 ≠ 1 then .error (.badVersion, v)
      else
        let wrapped := rest.take 32
        let nonce := (rest.drop 32).take 12
        let ct := rest.drop 44
        let v1 := { v with keyMode := b6, wrappedKeyOrSalt := some wrapped }
        if b6 = KEY_MODE_DPAPI then .error (.dpapiUnavailable, v1)
        else
          match v.passphrase with
          | none => .error (.passphraseRequired, v1)
          | some pass =>
            if pass = [] then .error (.passphraseRequired, v1)
            else
            let key := AESKeySrc.pbkdf2 pass wrapped
            let v2 := { v1 with aesKey := some key }
            match aesgcmDecrypt key nonce ct with
            | none => .error (.decryptionFailed, v2)
            | some pt =>
              match deserializeMap pt with
              | none => .error (.jsonError, v2)
              | some m => .ok { v2 with data := some m }
    | _ => .error (.tooSmall, v)

/-- `Vault._initialise_new_vault` on non-Windows: a fresh salt is drawn,
the key is derived from the passphrase and that salt, an empty dict is
saved.  `if not self._passphrase` is Python truthiness: a missing passphrase
and the empty string both raise.  `saltEnt` is the salt draw and `nonceEnt`
the nonce draw of the inner `_save`. -/
def vaultInitialiseNew (v : VaultState) (saltEnt nonceEnt : List Nat) :
    Except (VaultExc × VaultState) (VaultState × List Nat) :=
  match v.passphrase with
  | none => .error (.passphraseRequired, v)
  | some pass =>
    if pass = [] then .error (.passphraseRequired, v)
    else
    let key := AESKeySrc.pbkdf2 pass saltEnt
    let v1 := { v with aesKey := some key, wrappedKeyOrSalt := some saltEnt,
                       data := some [] }
    match vaultSave v1 nonceEnt with
    | .ok file => .ok (v1, file)
    | .error e => .error (e, v1)

/-- `Vault._ensure_loaded`: load the file when it exists, initialise a new
vault otherwise.  Returns the state and the vault-file content after the
call.  `saltEnt`/`nonceEnt` are consumed only on the initialise path. -/
def ensureLoaded (v : VaultState) (disk : Option (List Nat))
    (saltEnt nonceEnt : List Nat) :
    Except (VaultExc × VaultState) (VaultState × Option (List Nat)) :=
  match v.data with
  | some _ => .ok (v, disk)
  | none =>
    match disk with
    | some raw =>
      match vaultLoad v raw with
      | .ok v1 => .ok (v1, some raw)
      | .error e => .error e
    | none =>
      match vaultInitialiseNew v saltEnt nonceEnt with
      | .ok (v1, file) => .ok (v1, some file)
      | .error e => .error e

/-- `Vault.store`: ensure loaded, upsert, save.  `nonceEnt` is the nonce
draw of the final `_save`. -/
def vaultStore (v : VaultState) (disk : Option (List Nat))
    (name value : PyStr) (saltEnt nonceEnt0 nonceEnt : List Nat) :
    Except (VaultExc × VaultState) (VaultState × List Nat) :=
  match ensureLoaded v disk saltEnt nonceEnt0 with
  | .error e => .error e
  | .ok (v1, _) =>
    match v1.data with
    | none => .error (.pyTypeError, v1)
    | some m =>
      let v2 := { v1 with data := some (dictSet m name value) }
      match vaultSave v2 nonceEnt with
      | .ok file => .ok (v2, file)
      | .error e => .error (e, v2)

/-- `Vault.retrieve`: ensure loaded, then a dict lookup; a missing key is a
`KeyError`. -/
def vaultRetrieve (v : VaultState) (disk : Option (List Nat))
    (name : PyStr) (saltEnt nonceEnt0 : List Nat) :
    Except (VaultExc × VaultState) (PyStr × VaultState × Option (List Nat)) :=
  match ensureLoaded v disk saltEnt nonceEnt0 with
  | .error e => .error e
  | .ok (v1, disk1) =>
    match v1.data with
    | none => .error (.pyTypeError, v1)
    | some m =>
      match dictGet m name with
      | none => .error (.pyKeyError, v1)
      | some value => .ok (value, v1, disk1)

/-- `Vault.rotate_key` on non-Windows: ensure loaded, replace the in-memory
key by fresh random bytes (`newKeyEnt`), replace the stored salt by a fresh
one (`newSaltEnt`) — without re-deriving the key from the passphrase — and
save.  The DPAPI branch fails because DPAPI is unavailable. -/
def vaultRotateKey (v : VaultState) (disk : Option (List Nat))
    (saltEnt nonceEnt0 newKeyEnt newSaltEnt nonceEnt : List Nat) :
    Except (VaultExc × VaultState) (VaultState × List Nat) :=
  match ensureLoaded v disk saltEnt nonceEnt0 with
  | .error e => .error e
  | .ok (v1, _) =>
    let v2 := { v1 with aesKey := some (AESKeySrc.random newKeyEnt) }
    if v2.keyMode = KEY_MODE_DPAPI then .error (.dpapiUnavailable, v2)
    else
      let v3 := { v2 with wrappedKeyOrSalt := some newSaltEnt }
      match vaultSave v3 nonceEnt with
      | .ok file => .ok (v3, file)
      | .error e => .error (e, v3)

/-- `Vault.is_locked`. -/
def vaultIsLocked (v : VaultState) (disk : Option (List Nat)) : Bool :=
  disk.isSome ∧ v.data = none

/-! # Theorems

## Splitting and joining colon-delimited strings -/

theorem natToDecAux_digits :
    ∀ fuel n d, d ∈ natToDecAux fuel n → 48 ≤ d ∧ d ≤ 57 := by
  intro fuel
  induction fuel with
  | zero => intro n d hd; simp [natToDecAux] at hd
  | succ fuel ih =>
    intro n d hd
    by_cases h : n < 10
    · simp only [natToDecAux, if_pos h, List.mem_singleton] at hd
      omega
    · simp only [natToDecAux, if_neg h, List.mem_append, List.mem_singleton] at hd
      rcases hd with hd | hd
      · exact ih _ _ hd
      · have : n % 10 < 10 := Nat.mod_lt _ (by omega)
        omega

theorem decDigitsVal_append (acc : Nat) (l1 l2 : List Nat) :
    decDigitsVal acc (l1 ++ l2) = decDigitsVal (decDigitsVal acc l1) l2 := by
  induction l1 generalizing acc with
  | nil => rfl
  | cons d rest ih =>
    have hl : decDigitsVal acc ((d :: rest) ++ l2)
        = decDigitsVal (acc * 10 + (d - 48)) (rest ++ l2) := rfl
    have hr2 : decDigitsVal acc (d :: rest)
        = decDigitsVal (acc * 10 + (d - 48)) rest := rfl
    rw [hl, hr2, ih]

theorem decDigitsVal_natToDecAux :
    ∀ fuel n, n < 10 ^ fuel → decDigitsVal 0 (natToDecAux fuel n) = n := by
  intro fuel
  induction fuel with
  | zero =>
    intro n hn
    have h0 : n = 0 := by simpa using hn
    subst h0; rfl
  | succ fuel ih =>
    intro n hn
    have e1 : natToDecAux (fuel + 1) n
        = if n < 10 then [48 + n] else natToDecAux fuel (n / 10) ++ [48 + n % 10] := rfl
    by_cases h : n < 10
    · rw [e1, if_pos h]
      have e2 : decDigitsVal 0 [48 + n] = 0 * 10 + (48 + n - 48) := rfl
      rw [e2]; omega
    · have hdiv : n / 10 < 10 ^ fuel := by
        rw [pow_succ] at hn
        exact Nat.div_lt_of_lt_mul (by omega)
      rw [e1, if_neg h, decDigitsVal_append, ih _ hdiv]
      have e3 : decDigitsVal (n / 10) [48 + n % 10]
          = (n / 10) * 10 + (48 + n % 10 - 48) := rfl
      rw [e3]; omega

theorem decDigitsVal_natToDec (n : Nat) : decDigitsVal 0 (natToDec n) = n :=
  decDigitsVal_natToDecAux (n + 1) n
    (lt_of_lt_of_le (Nat.lt_pow_self (by norm_num) n)
      (Nat.pow_le_pow_right (by norm_num) (Nat.le_succ n)))

theorem natToDec_digits (n d : Nat) (hd : d ∈ natToDec n) : 48 ≤ d ∧ d ≤ 57 :=
  natToDecAux_digits _ _ _ hd

theorem append_sep_inj (sep : Nat) :
    ∀ (xs ys u v : List Nat), sep ∉ xs → sep ∉ ys →
      xs ++ sep :: u = ys ++ sep :: v → xs = ys ∧ u = v := by
  intro xs
  induction xs with
  | nil =>
    intro ys u v _ hy h
    cases ys with
    | nil =>
      refine ⟨rfl, ?_⟩
      simpa using h
    | cons b ys2 =>
      simp only [List.nil_append, List.cons_append, List.cons.injEq] at h
      have hmem : sep ∈ b :: ys2 := by
        rw [h.1]
        exact List.mem_cons_self b ys2
      exact absurd hmem hy
  | cons a xs2 ih =>
    intro ys u v hx hy h
    cases ys with
    | nil =>
      simp only [List.cons_append, List.nil_append, List.cons.injEq] at h
      have hmem : sep ∈ a :: xs2 := by
        rw [← h.1]
        exact List.mem_cons_self a xs2
      exact absurd hmem hx
    | cons b ys2 =>
      simp only [List.cons_append, List.cons.injEq] at h
      have hx2 : sep ∉ xs2 := fun hm => hx (List.mem_cons_of_mem _ hm)
      have hy2 : sep ∉ ys2 := fun hm => hy (List.mem_cons_of_mem _ hm)
      obtain ⟨he, hu⟩ := ih ys2 u v hx2 hy2 h.2
      exact ⟨by rw [h.1, he], hu⟩

theorem natToDec_inj {a b : Nat} (h : natToDec a = natToDec b) : a = b := by
  have ha := decDigitsVal_natToDec a
  rw [h, decDigitsVal_natToDec] at ha
  exact ha.symm

theorem natToDec_no_120 (n : Nat) : 120 ∉ natToDec n := by
  intro h
  have := natToDec_digits n 120 h
  omega

theorem flatMapEnc_digits (l : List Nat) :
    ∀ c ∈ l.flatMap (fun b => natToDec b ++ [120]), (48 ≤ c ∧ c ≤ 57) ∨ c = 120 := by
  intro c hc
  simp only [List.mem_flatMap, List.mem_append, List.mem_singleton] at hc
  obtain ⟨b, _, hb⟩ := hc
  rcases hb with hb | hb
  · exact Or.inl (natToDec_digits b c hb)
  · exact Or.inr hb

theorem flatMapEnc_no_121 (l : List Nat) :
    121 ∉ l.flatMap (fun b => natToDec b ++ [120]) := by
  intro h
  rcases flatMapEnc_digits l 121 h with h2 | h2 <;> omega

theorem flatMapEnc_inj :
    ∀ (l1 l2 : List Nat),
      l1.flatMap (fun b => natToDec b ++ [120])
        = l2.flatMap (fun b => natToDec b ++ [120]) → l1 = l2 := by
  intro l1
  induction l1 with
  | nil =>
    intro l2 h
    cases l2 with
    | nil => rfl
    | cons b l2t =>
      rw [List.flatMap_nil, List.flatMap_cons] at h
      simp at h
  | cons a l1t ih =>
    intro l2 h
    cases l2 with
    | nil =>
      rw [List.flatMap_cons, List.flatMap_nil] at h
      simp at h
    | cons b l2t =>
      rw [List.flatMap_cons, List.flatMap_cons] at h
      have h2 : natToDec a ++ 120 :: l1t.flatMap (fun x => natToDec x ++ [120])
          = natToDec b ++ 120 :: l2t.flatMap (fun x => natToDec x ++ [120]) := by
        simpa [List.append_assoc] using h
      obtain ⟨hd, ht⟩ :=
        append_sep_inj 120 _ _ _ _ (natToDec_no_120 a) (natToDec_no_120 b) h2
      rw [natToDec_inj hd, ih l2t ht]

theorem hmacSign_inj {k1 k2 : List Nat} {m1 m2 : PyStr}
    (h : hmacSign k1 m1 = hmacSign k2 m2) : k1 = k2 ∧ m1 = m2 := by
  unfold hmacSign at h
  obtain ⟨hk, hm⟩ :=
    append_sep_inj 121 _ _ _ _ (flatMapEnc_no_121 k1) (flatMapEnc_no_121 k2) h
  exact ⟨flatMapEnc_inj _ _ hk, flatMapEnc_inj _ _ hm⟩

theorem dictGet_dictSet_self (m : List (PyStr × PyStr)) (k v : PyStr) :
    dictGet (dictSet m k v) k = some v := by
  unfold dictGet dictSet
  by_cases h : m.any (fun e => e.1 = k)
  · rw [if_pos h]
    induction m with
    | nil => simp at h
    | cons e rest ih =>
      rw [List.map_cons]
      by_cases he : e.1 = k
      · rw [if_pos he, List.find?_cons_of_pos _ (by simp)]
      · rw [if_neg he, List.find?_cons_of_neg _ (by simpa using he)]
        have hh : rest.any (fun e => e.1 = k) := by
          simp only [List.any_cons, he] at h
          simpa using h
        exact ih hh
  · rw [if_neg h]
    induction m with
    | nil => simp
    | cons e rest ih =>
      have he : ¬ e.1 = k := by
        intro hek
        exact h (by simp [List.any_cons, hek])
      have hh : ¬ rest.any (fun e => e.1 = k) := by
        intro hr
        exact h (by simp [List.any_cons, hr])
      rw [List.cons_append, List.find?_cons_of_neg _ (by simpa using he)]
      exact ih hh

/-! ## Classification of base64 decode failures -/

/-- C8: a peer whose stored allowlist signature is not the HMAC of
`"allow:" + peer_id` under the current signing key (in particular a peer
with a tampered or missing entry) gets `false` from `is_peer_allowed` — a
plain return, not an exception — and is excluded from
`list_allowed_peers`; and on load, an entry whose stored signature does not
verify is dropped from the in-memory allowlist. -/
theorem claim_C8_tampered_allowlist_entry
    (st : IdState) (peerId : PyStr)
    (h : dictGet st.allowlist peerId
      ≠ some (hmacSign st.signingKey (allowPrefix ++ peerId))) :
    isPeerAllowed st peerId = false ∧
      peerId ∉ listAllowedPeers st ∧
      ∀ (key : List Nat) (data : List (PyStr × PyStr)) (sig : PyStr),
        (peerId, sig) ∈ data → hmacSign key (allowPrefix ++ peerId) ≠ sig →
        (peerId, sig) ∉ loadAllowlist key data := by
  have hfalse : isPeerAllowed st peerId = false := by
    unfold isPeerAllowed
    cases hd : dictGet st.allowlist peerId with
    | none => rfl
    | some sig =>
      have hne : hmacSign st.signingKey (allowPrefix ++ peerId) ≠ sig := by
        intro he
        exact h (he ▸ hd)
      simpa using hne
  refine ⟨hfalse, ?_, ?_⟩
  · intro hmem
    have := (List.mem_filter.mp hmem).2
    rw [hfalse] at this
    exact absurd this (by simp)
  · intro key data sig hmem hne hmem2
    have := (List.mem_filter.mp hmem2).2
    exact hne (by simpa using this)

/-- Witness for C8: a state whose only allowlist entry for peer `"B"`
carries the wrong signature `[0]`: the peer is not allowed, not listed, and
the same tampered entry is dropped by the load filter. -/
theorem claim_C8_tampered_allowlist_entry_witness :
    isPeerAllowed
        { signingKey := [5], tokenTtl := 300, nonceStore := [],
          allowlist := [([66], [0])] } [66] = false ∧
      [66] ∉ listAllowedPeers
        { signingKey := [5], tokenTtl := 300, nonceStore := [],
          allowlist := [([66], [0])] } ∧
      ∀ (key : List Nat) (data : List (PyStr × PyStr)) (sig : PyStr),
        ([66], sig) ∈ data → hmacSign key (allowPrefix ++ [66]) ≠ sig →
        ([66], sig) ∉ loadAllowlist key data :=
  claim_C8_tampered_allowlist_entry
    { signingKey := [5], tokenTtl := 300, nonceStore := [],
      allowlist := [([66], [0])] } [66] (by decide)

/-! ## Claim C10: undersized signing-key file -/

/-- C10: when the signing-key file exists but its content is not exactly 32
bytes, constructing an `IdentityManager` silently draws a fresh key and
rewrites the file with it; consequently every allowlist entry signed under
the previous key fails verification during the allowlist load and the
in-memory allowlist comes up empty — the construction returns normally, no
error reaches the caller. -/
theorem claim_C10_short_keyfile_regenerates
    (oldRaw freshKey oldKey : List Nat) (entries : List (PyStr × PyStr)) (ttl : Int)
    (hlen : oldRaw.length ≠ SIGNING_KEY_BYTES)
    (hne : freshKey ≠ oldKey)
    (hall : ∀ e ∈ entries, e.2 = hmacSign oldKey (allowPrefix ++ e.1)) :
    (initIdentity (some oldRaw) (some entries) freshKey ttl).state.signingKey = freshKey ∧
      (initIdentity (some oldRaw) (some entries) freshKey ttl).keyFileAfter = freshKey ∧
      (initIdentity (some oldRaw) (some entries) freshKey ttl).generatedFresh = true ∧
      (initIdentity (some oldRaw) (some entries) freshKey ttl).state.allowlist = [] := by
  have hinit : initIdentity (some oldRaw) (some entries) freshKey ttl =
      { state :=
          { signingKey := freshKey, tokenTtl := ttl, nonceStore := [],
            allowlist := loadAllowlist freshKey entries },
        keyFileAfter := freshKey, generatedFresh := true } := by
    simp only [initIdentity, if_neg hlen]
  rw [hinit]
  refine ⟨rfl, rfl, rfl, ?_⟩
  show loadAllowlist freshKey entries = []
  unfold loadAllowlist
  rw [List.filter_eq_nil_iff]
  intro e hmem
  simp only [decide_eq_true_eq]
  intro heq
  rw [hall e hmem] at heq
  exact hne (hmacSign_inj heq).1

/-- Witness for C10: a 3-byte key file is replaced by a fresh 32-byte key
and the single old-signed allowlist entry is dropped. -/
theorem claim_C10_short_keyfile_regenerates_witness :
    (initIdentity (some [1, 2, 3])
        (some [([66], hmacSign (List.replicate 32 5) (allowPrefix ++ [66]))])
        (List.replicate 32 9) 300).state.signingKey = List.replicate 32 9 ∧
      (initIdentity (some [1, 2, 3])
        (some [([66], hmacSign (List.replicate 32 5) (allowPrefix ++ [66]))])
        (List.replicate 32 9) 300).keyFileAfter = List.replicate 32 9 ∧
      (initIdentity (some [1, 2, 3])
        (some [([66], hmacSign (List.replicate 32 5) (allowPrefix ++ [66]))])
        (List.replicate 32 9) 300).generatedFresh = true ∧
      (initIdentity (some [1, 2, 3])
        (some [([66], hmacSign (List.replicate 32 5) (allowPrefix ++ [66]))])
        (List.replicate 32 9) 300).state.allowlist = [] :=
  claim_C10_short_keyfile_regenerates [1, 2, 3] (List.replicate 32 9)
    (List.replicate 32 5)
    [([66], hmacSign (List.replicate 32 5) (allowPrefix ++ [66]))] 300
    (by decide) (by decide) (by decide)

/-! ## Claim C1: key rotation

In PBKDF2 (passphrase-derived) mode, `rotate_key` replaces the in-memory
AES key by fresh random bytes and the stored salt by a fresh salt, but
never re-derives the key from the passphrase and the new salt (contrast
`_initialise_new_vault`, which does).  The vault saved after rotation is
therefore encrypted under a key that no fresh instance can recover from the
passphrase: the claimed fresh-instance retrievability fails. -/

/-- C1 failing run: store `"a" ↦ "b"` in a fresh passphrase vault, rotate
the key, and observe that (i) the same instance still retrieves the value,
(ii) the on-disk key material (salt) changed, but (iii) a fresh instance on
the same file with the same passphrase fails with `DecryptionFailed` and
its credential map stays unpopulated — the code loses the vault, against
the claim. -/
theorem claim_C1_rotation_breaks_fresh_instance :
    ∃ v2 file1 v3 file2,
      vaultStore (vaultNew (some [112])) none [97] [98]
          (List.replicate 32 5) (List.replicate 12 9) (List.replicate 12 9)
        = .ok (v2, file1) ∧
      vaultRotateKey v2 (some file1) [] []
          (List.replicate 32 8) (List.replicate 32 6) (List.replicate 12 4)
        = .ok (v3, file2) ∧
      (∃ v4 d4, vaultRetrieve v3 (some file2) [97] [] [] = .ok ([98], v4, d4)) ∧
      (file2.drop 7).take 32 = List.replicate 32 6 ∧
      (file1.drop 7).take 32 = List.replicate 32 5 ∧
      ∃ v5, vaultRetrieve (vaultNew (some [112])) (some file2) [97] [] []
          = .error (.decryptionFailed, v5) ∧ v5.data = none :=
  ⟨_, _, _, _, rfl, rfl, ⟨_, _, rfl⟩, rfl, rfl, _, rfl, rfl⟩

/-! ## Ideal AES-GCM: functional correctness and authenticity -/

theorem keyEnc_inj {k1 k2 : AESKeySrc} (h : keyEnc k1 = keyEnc k2) : k1 = k2 := by
  cases k1 with
  | random bs1 =>
    cases k2 with
    | random bs2 =>
      simp only [keyEnc, List.cons.injEq] at h
      rw [h.2.2]
    | pbkdf2 p2 s2 => simp [keyEnc] at h
  | pbkdf2 p1 s1 =>
    cases k2 with
    | random bs2 => simp [keyEnc] at h
    | pbkdf2 p2 s2 =>
      simp only [keyEnc, List.cons.injEq] at h
      obtain ⟨_, hp, hs, happ⟩ := h
      obtain ⟨hpe, hse⟩ := List.append_inj happ hp
      rw [hpe, hse]

theorem aesgcmDecrypt_encrypt (k : AESKeySrc) (n pt : List Nat) :
    aesgcmDecrypt k n (aesgcmEncrypt k n pt) = some pt := by
  have hrest : ((keyEnc k ++ n ++ pt ++ pt).drop ((keyEnc k).length + n.length)).take pt.length
      = pt := by
    have hassoc : keyEnc k ++ n ++ pt ++ pt = (keyEnc k ++ n) ++ (pt ++ pt) := by
      simp [List.append_assoc]
    rw [hassoc, List.drop_left' (by simp), List.take_append_of_le_length (by simp),
        List.take_of_length_le (by simp)]
  have e1 : aesgcmDecrypt k n (aesgcmEncrypt k n pt) =
      (if aesgcmEncrypt k n pt = aesgcmEncrypt k n
          (((keyEnc k ++ n ++ pt ++ pt).drop ((keyEnc k).length + n.length)).take pt.length)
        then some (((keyEnc k ++ n ++ pt ++ pt).drop
          ((keyEnc k).length + n.length)).take pt.length)
        else none) := rfl
  rw [e1, hrest, if_pos rfl]

theorem aesgcmDecrypt_some {k : AESKeySrc} {n ct pt : List Nat}
    (h : aesgcmDecrypt k n ct = some pt) : ct = aesgcmEncrypt k n pt := by
  cases ct with
  | nil => simp [aesgcmDecrypt] at h
  | cons lp rest1 =>
    cases rest1 with
    | nil => simp [aesgcmDecrypt] at h
    | cons kl rest2 =>
      cases rest2 with
      | nil => simp [aesgcmDecrypt] at h
      | cons nl rest =>
        by_cases hc : (lp :: kl :: nl :: rest)
            = aesgcmEncrypt k n ((rest.drop ((keyEnc k).length + n.length)).take lp)
        · have e1 : aesgcmDecrypt k n (lp :: kl :: nl :: rest)
              = some ((rest.drop ((keyEnc k).length + n.length)).take lp) := by
            show (if (lp :: kl :: nl :: rest)
                = aesgcmEncrypt k n ((rest.drop ((keyEnc k).length + n.length)).take lp)
              then some ((rest.drop ((keyEnc k).length + n.length)).take lp)
              else none) = _
            rw [if_pos hc]
          rw [e1] at h
          have hpt : (rest.drop ((keyEnc k).length + n.length)).take lp = pt := by
            simpa using h
          rw [hc, hpt]
        · have e1 : aesgcmDecrypt k n (lp :: kl :: nl :: rest) = none := by
            show (if (lp :: kl :: nl :: rest)
                = aesgcmEncrypt k n ((rest.drop ((keyEnc k).length + n.length)).take lp)
              then some ((rest.drop ((keyEnc k).length + n.length)).take lp)
              else none) = _
            rw [if_neg hc]
          rw [e1] at h
          simp at h

theorem aesgcmEncrypt_inj {k1 k2 : AESKeySrc} {n1 n2 pt1 pt2 : List Nat}
    (h : aesgcmEncrypt k1 n1 pt1 = aesgcmEncrypt k2 n2 pt2) :
    k1 = k2 ∧ n1 = n2 ∧ pt1 = pt2 := by
  simp only [aesgcmEncrypt, List.cons.injEq] at h
  obtain ⟨hlp, hkl, hnl, htail⟩ := h
  obtain ⟨hA, hpt⟩ := List.append_inj htail (by simp [hlp, hkl, hnl])
  obtain ⟨hB, _⟩ := List.append_inj hA (by simp [hkl, hnl])
  obtain ⟨hke, hn⟩ := List.append_inj hB (by simp [hkl])
  exact ⟨keyEnc_inj hke, hn, hpt⟩

theorem aesgcmDecrypt_not_genuine {ks kv : AESKeySrc} {nv ns pt : List Nat}
    (h : kv ≠ ks ∨ nv ≠ ns) :
    aesgcmDecrypt kv nv (aesgcmEncrypt ks ns pt) = none := by
  cases hd : aesgcmDecrypt kv nv (aesgcmEncrypt ks ns pt) with
  | none => rfl
  | some q =>
    have heq := aesgcmDecrypt_some hd
    obtain ⟨hk, hn, _⟩ := aesgcmEncrypt_inj heq
    rcases h with h | h
    · exact absurd hk.symm h
    · exact absurd hn.symm h

/-- Two doubled-payload encodings that share a prefix and a suffix around a
single differing position have the same payload. -/
theorem append_double_inj (P pt q pre suf : List Nat) (c b : Nat)
    (h1 : P ++ (pt ++ pt) = pre ++ c :: suf)
    (h2 : P ++ (q ++ q) = pre ++ b :: suf)
    (hlen : pt.length = q.length) : pt = q := by
  by_cases hpre : pre.length + 1 ≤ P.length
  · have dr1 : (pre ++ c :: suf).drop (pre.length + 1) = suf := by
      rw [show pre ++ c :: suf = (pre ++ [c]) ++ suf by simp,
          List.drop_left' (by simp)]
    have dr2 : (pre ++ b :: suf).drop (pre.length + 1) = suf := by
      rw [show pre ++ b :: suf = (pre ++ [b]) ++ suf by simp,
          List.drop_left' (by simp)]
    have e1 : P.drop (pre.length + 1) ++ (pt ++ pt) = suf := by
      rw [← List.drop_append_of_le_length hpre, h1, dr1]
    have e2 : P.drop (pre.length + 1) ++ (q ++ q) = suf := by
      rw [← List.drop_append_of_le_length hpre, h2, dr2]
    have ecat := List.append_cancel_left (e1.trans e2.symm)
    exact (List.append_inj ecat hlen).1
  · obtain ⟨j, hj⟩ : ∃ j, pre.length = P.length + j := ⟨pre.length - P.length, by omega⟩
    have t1 : P ++ (pt ++ pt).take j = pre := by
      rw [← @List.take_append _ P (pt ++ pt) j, ← hj, h1,
          List.take_append_of_le_length (by simp), List.take_of_length_le (by simp)]
    have t2 : P ++ (q ++ q).take j = pre := by
      rw [← @List.take_append _ P (q ++ q) j, ← hj, h2,
          List.take_append_of_le_length (by simp), List.take_of_length_le (by simp)]
    have tk := List.append_cancel_left (t1.trans t2.symm)
    have d1 : (pt ++ pt).drop (j + 1) = suf := by
      rw [← @List.drop_append _ P (pt ++ pt) (j + 1),
          show P.length + (j + 1) = pre.length + 1 by omega, h1,
          show pre ++ c :: suf = (pre ++ [c]) ++ suf by simp,
          List.drop_left' (by simp)]
    have d2 : (q ++ q).drop (j + 1) = suf := by
      rw [← @List.drop_append _ P (q ++ q) (j + 1),
          show P.length + (j + 1) = pre.length + 1 by omega, h2,
          show pre ++ b :: suf = (pre ++ [b]) ++ suf by simp,
          List.drop_left' (by simp)]
    have dp := d1.trans d2.symm
    by_cases hcase : j + 1 ≤ pt.length
    · have dd1 : (pt ++ pt).drop (j + 1) = pt.drop (j + 1) ++ pt :=
        List.drop_append_of_le_length hcase
      have dd2 : (q ++ q).drop (j + 1) = q.drop (j + 1) ++ q :=
        List.drop_append_of_le_length (hlen ▸ hcase)
      rw [dd1, dd2] at dp
      exact (List.append_inj dp (by simp [hlen])).2
    · obtain ⟨m, hm⟩ : ∃ m, j = pt.length + m := ⟨j - pt.length, by omega⟩
      have hmq : j = q.length + m := by omega
      have tt1 : (pt ++ pt).take j = pt ++ pt.take m := by
        rw [hm, List.take_append]
      have tt2 : (q ++ q).take j = q ++ q.take m := by
        rw [hmq, List.take_append]
      rw [tt1, tt2] at tk
      exact (List.append_inj tk hlen).1

/-- Changing the value at any single position of a genuine ciphertext makes
ideal AES-GCM decryption fail. -/
theorem aesgcmDecrypt_one_change {k : AESKeySrc} {n pt pre suf : List Nat} {b c : Nat}
    (henc : aesgcmEncrypt k n pt = pre ++ c :: suf) (hbc : b ≠ c) :
    aesgcmDecrypt k n (pre ++ b :: suf) = none := by
  cases hd : aesgcmDecrypt k n (pre ++ b :: suf) with
  | none => rfl
  | some q =>
    exfalso
    have henc2 : aesgcmEncrypt k n q = pre ++ b :: suf := (aesgcmDecrypt_some hd).symm
    have hlen : pt.length = q.length := by
      have l1 := congrArg List.length henc
      have l2 := congrArg List.length henc2
      simp only [aesgcmEncrypt, List.length_cons, List.length_append] at l1 l2
      omega
    have hform1 : (pt.length :: (keyEnc k).length :: n.length :: (keyEnc k ++ n))
        ++ (pt ++ pt) = pre ++ c :: suf := by
      rw [← henc]
      simp [aesgcmEncrypt, List.append_assoc]
    have hform2 : (pt.length :: (keyEnc k).length :: n.length :: (keyEnc k ++ n))
        ++ (q ++ q) = pre ++ b :: suf := by
      rw [← henc2, hlen]
      simp [aesgcmEncrypt, List.append_assoc]
    have hq := append_double_inj _ pt q pre suf c b hform1 hform2 hlen
    rw [hq] at henc
    have := henc.symm.trans henc2
    have hcb := List.append_cancel_left this
    injection hcb with hcb1
    exact hbc hcb1.symm

/-! ## Serialisation of the credential map -/

theorem serializeMap_length_ge (m : List (PyStr × PyStr)) :
    m.length ≤ (serializeMap m).length := by
  induction m with
  | nil => simp [serializeMap]
  | cons kv rest ih =>
    obtain ⟨k, v⟩ := kv
    simp only [serializeMap, List.length_cons, List.length_append]
    omega

theorem deserializeMapAux_serializeMap :
    ∀ (m : List (PyStr × PyStr)) (fuel : Nat), m.length ≤ fuel →
      deserializeMapAux fuel (serializeMap m) = some m := by
  intro m
  induction m with
  | nil =>
    intro fuel _
    cases fuel <;> rfl
  | cons kv rest ih =>
    intro fuel hf
    have hf0 : 0 < fuel := lt_of_lt_of_le (by simp) hf
    obtain ⟨f, rfl⟩ : ∃ f, fuel = f + 1 := ⟨fuel - 1, by omega⟩
    obtain ⟨k, v⟩ := kv
    have e : deserializeMapAux (f + 1)
        (k.length :: v.length :: (k ++ v ++ serializeMap rest))
        = (if k.length + v.length ≤ (k ++ v ++ serializeMap rest).length then
            match deserializeMapAux f
                ((k ++ v ++ serializeMap rest).drop (k.length + v.length)) with
            | some m2 => some (((k ++ v ++ serializeMap rest).take k.length,
                ((k ++ v ++ serializeMap rest).drop k.length).take v.length) :: m2)
            | none => none
          else none) := rfl
    have hdrop : (k ++ v ++ serializeMap rest).drop (k.length + v.length)
        = serializeMap rest := List.drop_left' (by simp)
    have htakek : (k ++ v ++ serializeMap rest).take k.length = k := by
      rw [List.append_assoc, List.take_append_of_le_length (by simp),
          List.take_of_length_le (le_refl _)]
    have hdropk : ((k ++ v ++ serializeMap rest).drop k.length).take v.length = v := by
      rw [List.append_assoc, List.drop_left, List.take_append_of_le_length (le_refl _),
          List.take_of_length_le (le_refl _)]
    show deserializeMapAux (f + 1)
        (k.length :: v.length :: (k ++ v ++ serializeMap rest)) = _
    rw [e, if_pos (by simp), hdrop, ih f (by simpa using hf), htakek, hdropk]

theorem deserializeMap_serializeMap (m : List (PyStr × PyStr)) :
    deserializeMap (serializeMap m) = some m :=
  deserializeMapAux_serializeMap m (serializeMap m).length (serializeMap_length_ge m)

/-! ## Vault file parsing -/

theorem aesgcmEncrypt_length_ge (k : AESKeySrc) (n pt : List Nat) (hn : n.length = 12) :
    16 ≤ (aesgcmEncrypt k n pt).length := by
  have hke : 1 ≤ (keyEnc k).length := by
    cases k <;> simp [keyEnc]
  simp only [aesgcmEncrypt, List.length_cons, List.length_append]
  omega

/-- Loading a well-formed version-1 PBKDF2-mode vault file reduces to key
derivation from the stored salt followed by decryption. -/
theorem vaultLoad_wellformed (v : VaultState) (pass : PyStr) (s n c : List Nat)
    (hv : v.passphrase = some pass) (hp : pass ≠ [])
    (hs : s.length = 32) (hn : n.length = 12) (hc : 16 ≤ c.length) :
    vaultLoad v (VAULT_MAGIC ++ [1, 0] ++ [1] ++ s ++ n ++ c) =
      (match aesgcmDecrypt (AESKeySrc.pbkdf2 pass s) n c with
       | none => .error (.decryptionFailed,
           { v with keyMode := 1, wrappedKeyOrSalt := some s,
                    aesKey := some (AESKeySrc.pbkdf2 pass s) })
       | some pt =>
         match deserializeMap pt with
         | none => .error (.jsonError,
             { v with keyMode := 1, wrappedKeyOrSalt := some s,
                      aesKey := some (AESKeySrc.pbkdf2 pass s) })
         | some m => .ok { v with keyMode := 1, wrappedKeyOrSalt := some s,
                                  aesKey := some (AESKeySrc.pbkdf2 pass s),
                                  data := some m }) := by
  have hfile : VAULT_MAGIC ++ [1, 0] ++ [1] ++ s ++ n ++ c
      = 82 :: 85 :: 66 :: 86 :: 1 :: 0 :: 1 :: (s ++ (n ++ c)) := by
    simp [VAULT_MAGIC, List.append_assoc]
  have hlen2 : (82 :: 85 :: 66 :: 86 :: 1 :: 0 :: 1 :: (s ++ (n ++ c))).length
      = 51 + c.length := by
    simp only [List.length_cons, List.length_append, hs, hn]
    omega
  have hwrapped : (s ++ (n ++ c)).take 32 = s := List.take_left' hs
  have hnonce : ((s ++ (n ++ c)).drop 32).take 12 = n := by
    rw [List.drop_left' hs, List.take_left' hn]
  have hct : (s ++ (n ++ c)).drop 44 = c := by
    rw [show (44 : Nat) = s.length + 12 by omega, List.drop_append, List.drop_left' hn]
  rw [hfile]
  unfold vaultLoad
  rw [if_neg (by rw [hlen2]; omega)]
  dsimp only
  rw [if_neg (by decide), if_neg (by decide), if_neg (by decide), hv]
  dsimp only
  rw [if_neg hp, hwrapped, hnonce, hct]

theorem mkVaultFile_eq (km : Nat) (s n c : List Nat) :
    mkVaultFile km s n c = VAULT_MAGIC ++ [1, 0] ++ [km] ++ s ++ n ++ c := rfl

/-! ## Claim C2: store/retrieve round-trip, including a fresh instance -/

/-- C2: on a loaded PBKDF2-mode vault whose in-memory key is derived from
its passphrase and stored salt (the invariant established by
`_initialise_new_vault` and `_load`, both of which also guarantee the
passphrase is non-empty — Python truthiness rejects `""` like `None`),
`store(name, value)` writes a file from which `retrieve(name)` returns
`value` unchanged — both on the same instance and on a fresh `Vault`
constructed on that file with the same passphrase. -/
theorem claim_C2_store_retrieve_roundtrip
    (v : VaultState) (m : List (PyStr × PyStr)) (pass : PyStr) (s nonce : List Nat)
    (name value : PyStr) (disk : Option (List Nat)) (saltE n0 : List Nat)
    (hdata : v.data = some m)
    (hkey : v.aesKey = some (AESKeySrc.pbkdf2 pass s)) (hmode : v.keyMode = 1)
    (hsalt : v.wrappedKeyOrSalt = some s) (hpe : pass ≠ [])
    (hs : s.length = 32) (hn : nonce.length = 12) :
    vaultStore v disk name value saltE n0 nonce
      = .ok ({ v with data := some (dictSet m name value) },
          mkVaultFile 1 s nonce (aesgcmEncrypt (AESKeySrc.pbkdf2 pass s) nonce
            (serializeMap (dictSet m name value)))) ∧
    vaultRetrieve { v with data := some (dictSet m name value) }
        (some (mkVaultFile 1 s nonce (aesgcmEncrypt (AESKeySrc.pbkdf2 pass s) nonce
          (serializeMap (dictSet m name value))))) name saltE n0
      = .ok (value, { v with data := some (dictSet m name value) },
          some (mkVaultFile 1 s nonce (aesgcmEncrypt (AESKeySrc.pbkdf2 pass s) nonce
            (serializeMap (dictSet m name value))))) ∧
    vaultRetrieve (vaultNew (some pass))
        (some (mkVaultFile 1 s nonce (aesgcmEncrypt (AESKeySrc.pbkdf2 pass s) nonce
          (serializeMap (dictSet m name value))))) name saltE n0
      = .ok (value,
          { passphrase := some pass, data := some (dictSet m name value),
            aesKey := some (AESKeySrc.pbkdf2 pass s), keyMode := 1,
            wrappedKeyOrSalt := some s },
          some (mkVaultFile 1 s nonce (aesgcmEncrypt (AESKeySrc.pbkdf2 pass s) nonce
            (serializeMap (dictSet m name value))))) := by
  have hensure : ensureLoaded v disk saltE n0 = .ok (v, disk) := by
    unfold ensureLoaded
    rw [hdata]
  have hsave : vaultSave { v with data := some (dictSet m name value) } nonce
      = .ok (mkVaultFile 1 s nonce (aesgcmEncrypt (AESKeySrc.pbkdf2 pass s) nonce
          (serializeMap (dictSet m name value)))) := by
    unfold vaultSave
    dsimp only
    rw [hkey, hsalt, hmode]
  have hstore : vaultStore v disk name value saltE n0 nonce
      = .ok ({ v with data := some (dictSet m name value) },
          mkVaultFile 1 s nonce (aesgcmEncrypt (AESKeySrc.pbkdf2 pass s) nonce
            (serializeMap (dictSet m name value)))) := by
    unfold vaultStore
    rw [hensure]
    dsimp only
    rw [hdata]
    dsimp only
    rw [hsave]
  refine ⟨hstore, ?_, ?_⟩
  · unfold vaultRetrieve
    have he2 : ensureLoaded { v with data := some (dictSet m name value) }
        (some (mkVaultFile 1 s nonce (aesgcmEncrypt (AESKeySrc.pbkdf2 pass s) nonce
          (serializeMap (dictSet m name value))))) saltE n0
        = .ok ({ v with data := some (dictSet m name value) },
            some (mkVaultFile 1 s nonce (aesgcmEncrypt (AESKeySrc.pbkdf2 pass s) nonce
              (serializeMap (dictSet m name value))))) := by
      unfold ensureLoaded
      dsimp only
    rw [he2]
    dsimp only
    rw [dictGet_dictSet_self]
  · unfold vaultRetrieve
    have hload : vaultLoad
        { passphrase := some pass, data := none, aesKey := none, keyMode := 1,
          wrappedKeyOrSalt := none }
        (mkVaultFile 1 s nonce (aesgcmEncrypt (AESKeySrc.pbkdf2 pass s) nonce
          (serializeMap (dictSet m name value))))
        = .ok { passphrase := some pass, data := some (dictSet m name value),
                aesKey := some (AESKeySrc.pbkdf2 pass s), keyMode := 1,
                wrappedKeyOrSalt := some s } := by
      rw [mkVaultFile_eq,
          vaultLoad_wellformed _ pass s nonce _ rfl hpe hs hn
            (aesgcmEncrypt_length_ge _ _ _ hn),
          aesgcmDecrypt_encrypt]
      dsimp only
      rw [deserializeMap_serializeMap]
    have he3 : ensureLoaded (vaultNew (some pass))
        (some (mkVaultFile 1 s nonce (aesgcmEncrypt (AESKeySrc.pbkdf2 pass s) nonce
          (serializeMap (dictSet m name value))))) saltE n0
        = .ok ({ passphrase := some pass, data := some (dictSet m name value),
                 aesKey := some (AESKeySrc.pbkdf2 pass s), keyMode := 1,
                 wrappedKeyOrSalt := some s },
            some (mkVaultFile 1 s nonce (aesgcmEncrypt (AESKeySrc.pbkdf2 pass s) nonce
              (serializeMap (dictSet m name value))))) := by
      unfold ensureLoaded
      dsimp only [vaultNew, KEY_MODE_PBKDF2]
      rw [hload]
    rw [he3]
    dsimp only
    rw [dictGet_dictSet_self]

/-- Witness for C2: one concrete store of `"a" ↦ "b"` on a freshly
initialised passphrase vault, retrieved both by the storing instance and by
a fresh instance on the written file. -/
theorem claim_C2_store_retrieve_roundtrip_witness :
    vaultStore
        { passphrase := some [112], data := some [],
          aesKey := some (AESKeySrc.pbkdf2 [112] (List.replicate 32 5)), keyMode := 1,
          wrappedKeyOrSalt := some (List.replicate 32 5) }
        none [97] [98] [] [] (List.replicate 12 9)
      = .ok ({ passphrase := some [112], data := some (dictSet [] [97] [98]),
               aesKey := some (AESKeySrc.pbkdf2 [112] (List.replicate 32 5)),
               keyMode := 1,
               wrappedKeyOrSalt := some (List.replicate 32 5) },
          mkVaultFile 1 (List.replicate 32 5) (List.replicate 12 9)
            (aesgcmEncrypt (AESKeySrc.pbkdf2 [112] (List.replicate 32 5))
              (List.replicate 12 9) (serializeMap (dictSet [] [97] [98])))) ∧
    vaultRetrieve
        { passphrase := some [112], data := some (dictSet [] [97] [98]),
          aesKey := some (AESKeySrc.pbkdf2 [112] (List.replicate 32 5)), keyMode := 1,
          wrappedKeyOrSalt := some (List.replicate 32 5) }
        (some (mkVaultFile 1 (List.replicate 32 5) (List.replicate 12 9)
          (aesgcmEncrypt (AESKeySrc.pbkdf2 [112] (List.replicate 32 5))
            (List.replicate 12 9) (serializeMap (dictSet [] [97] [98]))))) [97] [] []
      = .ok ([98],
          { passphrase := some [112], data := some (dictSet [] [97] [98]),
            aesKey := some (AESKeySrc.pbkdf2 [112] (List.replicate 32 5)), keyMode := 1,
            wrappedKeyOrSalt := some (List.replicate 32 5) },
          some (mkVaultFile 1 (List.replicate 32 5) (List.replicate 12 9)
            (aesgcmEncrypt (AESKeySrc.pbkdf2 [112] (List.replicate 32 5))
              (List.replicate 12 9) (serializeMap (dictSet [] [97] [98]))))) ∧
    vaultRetrieve (vaultNew (some [112]))
        (some (mkVaultFile 1 (List.replicate 32 5) (List.replicate 12 9)
          (aesgcmEncrypt (AESKeySrc.pbkdf2 [112] (List.replicate 32 5))
            (List.replicate 12 9) (serializeMap (dictSet [] [97] [98]))))) [97] [] []
      = .ok ([98],
          { passphrase := some [112], data := some (dictSet [] [97] [98]),
            aesKey := some (AESKeySrc.pbkdf2 [112] (List.replicate 32 5)), keyMode := 1,
            wrappedKeyOrSalt := some (List.replicate 32 5) },
          some (mkVaultFile 1 (List.replicate 32 5) (List.replicate 12 9)
            (aesgcmEncrypt (AESKeySrc.pbkdf2 [112] (List.replicate 32 5))
              (List.replicate 12 9) (serializeMap (dictSet [] [97] [98]))))) :=
  claim_C2_store_retrieve_roundtrip
    { passphrase := some [112], data := some [],
      aesKey := some (AESKeySrc.pbkdf2 [112] (List.replicate 32 5)), keyMode := 1,
      wrappedKeyOrSalt := some (List.replicate 32 5) }
    [] [112] (List.replicate 32 5) (List.replicate 12 9) [97] [98] none [] []
    rfl rfl rfl rfl (by decide) (by decide) (by decide)

/-! ## Claim C6: tamper detection -/

theorem append_cons_ne (pre suf : List Nat) {b c : Nat} (h : b ≠ c) :
    pre ++ b :: suf ≠ pre ++ c :: suf := by
  intro he
  have hc := List.append_cancel_left he
  injection hc with h1 _
  exact h h1

/-- A well-formed PBKDF2 vault file whose ciphertext does not decrypt under
the derived key makes any first access fail `DecryptionFailed`, with the
credential map left unpopulated. -/
theorem vaultRetrieve_decrypt_failed (pass2 : PyStr) (s n2 c2 : List Nat)
    (name : PyStr) (saltE n0 : List Nat)
    (hs : s.length = 32) (hn2 : n2.length = 12) (hc2 : 16 ≤ c2.length)
    (hp2 : pass2 ≠ [])
    (hdec : aesgcmDecrypt (AESKeySrc.pbkdf2 pass2 s) n2 c2 = none) :
    vaultRetrieve (vaultNew (some pass2)) (some (mkVaultFile 1 s n2 c2)) name saltE n0
      = .error (.decryptionFailed,
          { passphrase := some pass2, data := none,
            aesKey := some (AESKeySrc.pbkdf2 pass2 s),
            keyMode := 1, wrappedKeyOrSalt := some s }) := by
  have hload : vaultLoad
      { passphrase := some pass2, data := none, aesKey := none, keyMode := 1,
        wrappedKeyOrSalt := none } (mkVaultFile 1 s n2 c2)
      = .error (.decryptionFailed,
          { passphrase := some pass2, data := none,
            aesKey := some (AESKeySrc.pbkdf2 pass2 s),
            keyMode := 1, wrappedKeyOrSalt := some s }) := by
    rw [mkVaultFile_eq, vaultLoad_wellformed _ pass2 s n2 c2 rfl hp2 hs hn2 hc2, hdec]
  unfold vaultRetrieve
  have he : ensureLoaded (vaultNew (some pass2)) (some (mkVaultFile 1 s n2 c2)) saltE n0
      = .error (.decryptionFailed,
          { passphrase := some pass2, data := none,
            aesKey := some (AESKeySrc.pbkdf2 pass2 s),
            keyMode := 1, wrappedKeyOrSalt := some s }) := by
    unfold ensureLoaded
    dsimp only [vaultNew, KEY_MODE_PBKDF2]
    rw [hload]
  rw [he]

/-- C6: for a vault file holding map `m`, encrypted in PBKDF2 mode under
the key derived from `pass` and the stored salt: changing the value at any
single position of the nonce region or of the `ciphertext_and_tag` region
(which covers every single-bit flip), or opening the untampered file with a
different key-deriving (non-empty) passphrase — hence a different derived
key; an empty passphrase derives no key at all and raises the
passphrase-required error instead — makes the first access fail
`DecryptionFailed` with the in-memory credential map left unpopulated — the
vault never proceeds with wrong or partial data. -/
theorem claim_C6_tamper_detection (pass : PyStr) (s n : List Nat)
    (m : List (PyStr × PyStr)) (name : PyStr) (saltE n0 : List Nat)
    (hs : s.length = 32) (hn : n.length = 12) (hp : pass ≠ []) :
    (∀ pre suf (c b : Nat), n = pre ++ c :: suf → b ≠ c →
      vaultRetrieve (vaultNew (some pass))
        (some (mkVaultFile 1 s (pre ++ b :: suf)
          (aesgcmEncrypt (AESKeySrc.pbkdf2 pass s) n (serializeMap m)))) name saltE n0
      = .error (.decryptionFailed,
          { passphrase := some pass, data := none,
            aesKey := some (AESKeySrc.pbkdf2 pass s),
            keyMode := 1, wrappedKeyOrSalt := some s })) ∧
    (∀ pre suf (c b : Nat),
      aesgcmEncrypt (AESKeySrc.pbkdf2 pass s) n (serializeMap m) = pre ++ c :: suf →
      b ≠ c →
      vaultRetrieve (vaultNew (some pass))
        (some (mkVaultFile 1 s n (pre ++ b :: suf))) name saltE n0
      = .error (.decryptionFailed,
          { passphrase := some pass, data := none,
            aesKey := some (AESKeySrc.pbkdf2 pass s),
            keyMode := 1, wrappedKeyOrSalt := some s })) ∧
    (∀ pass2, pass2 ≠ pass → pass2 ≠ [] →
      vaultRetrieve (vaultNew (some pass2))
        (some (mkVaultFile 1 s n
          (aesgcmEncrypt (AESKeySrc.pbkdf2 pass s) n (serializeMap m)))) name saltE n0
      = .error (.decryptionFailed,
          { passphrase := some pass2, data := none,
            aesKey := some (AESKeySrc.pbkdf2 pass2 s),
            keyMode := 1, wrappedKeyOrSalt := some s })) := by
  refine ⟨?_, ?_, ?_⟩
  · intro pre suf c b hsplit hbc
    have hlen2 : (pre ++ b :: suf).length = 12 := by
      have : (pre ++ c :: suf).length = 12 := hsplit ▸ hn
      simpa using this
    refine vaultRetrieve_decrypt_failed pass s _ _ name saltE n0 hs hlen2
      (aesgcmEncrypt_length_ge _ _ _ hn) hp ?_
    apply aesgcmDecrypt_not_genuine
    right
    rw [hsplit]
    exact append_cons_ne pre suf hbc
  · intro pre suf c b hsplit hbc
    have hlen2 : 16 ≤ (pre ++ b :: suf).length := by
      have h1 := aesgcmEncrypt_length_ge (AESKeySrc.pbkdf2 pass s) n (serializeMap m) hn
      rw [hsplit] at h1
      simpa using h1
    exact vaultRetrieve_decrypt_failed pass s _ _ name saltE n0 hs hn hlen2 hp
      (aesgcmDecrypt_one_change hsplit hbc)
  · intro pass2 hne hp2
    refine vaultRetrieve_decrypt_failed pass2 s _ _ name saltE n0 hs hn
      (aesgcmEncrypt_length_ge _ _ _ hn) hp2 ?_
    apply aesgcmDecrypt_not_genuine
    left
    intro hk
    injection hk with hpk _
    exact hne hpk

/-- Witness for C6: on a concrete one-entry vault file, changing one
position of the nonce, changing one position of the ciphertext, and opening
with the wrong passphrase each fail `DecryptionFailed` with no data
loaded. -/
theorem claim_C6_tamper_detection_witness :
    vaultRetrieve (vaultNew (some [112]))
        (some (mkVaultFile 1 (List.replicate 32 5) ([] ++ 8 :: List.replicate 11 9)
          (aesgcmEncrypt (AESKeySrc.pbkdf2 [112] (List.replicate 32 5))
            (List.replicate 12 9) (serializeMap [([97], [98])])))) [97] [] []
      = .error (.decryptionFailed,
          { passphrase := some [112], data := none,
            aesKey := some (AESKeySrc.pbkdf2 [112] (List.replicate 32 5)),
            keyMode := 1, wrappedKeyOrSalt := some (List.replicate 32 5) }) ∧
    vaultRetrieve (vaultNew (some [112]))
        (some (mkVaultFile 1 (List.replicate 32 5) (List.replicate 12 9)
          ([] ++ 5 :: (aesgcmEncrypt (AESKeySrc.pbkdf2 [112] (List.replicate 32 5))
            (List.replicate 12 9) (serializeMap [([97], [98])])).drop 1))) [97] [] []
      = .error (.decryptionFailed,
          { passphrase := some [112], data := none,
            aesKey := some (AESKeySrc.pbkdf2 [112] (List.replicate 32 5)),
            keyMode := 1, wrappedKeyOrSalt := some (List.replicate 32 5) }) ∧
    vaultRetrieve (vaultNew (some [113]))
        (some (mkVaultFile 1 (List.replicate 32 5) (List.replicate 12 9)
          (aesgcmEncrypt (AESKeySrc.pbkdf2 [112] (List.replicate 32 5))
            (List.replicate 12 9) (serializeMap [([97], [98])])))) [97] [] []
      = .error (.decryptionFailed,
          { passphrase := some [113], data := none,
            aesKey := some (AESKeySrc.pbkdf2 [113] (List.replicate 32 5)),
            keyMode := 1, wrappedKeyOrSalt := some (List.replicate 32 5) }) :=
  ⟨(claim_C6_tamper_detection [112] (List.replicate 32 5) (List.replicate 12 9)
      [([97], [98])] [97] [] [] (by decide) (by decide) (by decide)).1
      [] (List.replicate 11 9) 9 8 (by decide) (by decide),
   (claim_C6_tamper_detection [112] (List.replicate 32 5) (List.replicate 12 9)
      [([97], [98])] [97] [] [] (by decide) (by decide) (by decide)).2.1
      [] ((aesgcmEncrypt (AESKeySrc.pbkdf2 [112] (List.replicate 32 5))
        (List.replicate 12 9) (serializeMap [([97], [98])])).drop 1) 4 5
      (by decide) (by decide),
   (claim_C6_tamper_detection [112] (List.replicate 32 5) (List.replicate 12 9)
      [([97], [98])] [97] [] [] (by decide) (by decide) (by decide)).2.2
      [113] (by decide) (by decide)⟩

/-! ## UTF-8 round-trip -/

end RubySec
